import Mathlib

/-!
Verification development for lib/SIL/Passes/MemoryPromotion.cpp.

The pass walks every function of a SIL module, finds alloc_box
instructions, flattens the boxed type into scalar elements
(getNumElements), collects and classifies every use of the box address
per element (collectAllocationUses / addElementUses), seeds per-block
escape information (the ElementPromotion constructor), runs the per-element
promotion step (ElementPromotion::doIt), and finally erases the alloc_box
when its use list is empty.

The definitions below are a shallow embedding of that file, translated
function by function.  Constructs of the host IR that the pass merely
queries (instruction kinds, operand numbers, parent blocks, function type
information) are modelled as explicit data carried by each use-list entry.
-/

namespace MemoryPromotion

/-- A canonical Swift type as far as getNumElements inspects it: tuples
carry the list of component types, structs carry the result of the
SILType.isAddressOnly query for the struct (true = resilient layout whose
fields cannot be inspected) together with the member list of the struct
declaration, where a member is some fieldType exactly when the dyn_cast
to VarDecl in the source succeeds (a stored field) and none for every
other member kind.  Every other type is a single scalar. -/
inductive CanType : Type where
  | tupleType (fields : List CanType)
  | structType (addressOnly : Bool) (members : List (Option CanType))
  | otherType

mutual

/-- getNumElements from the source: the flattened element count of a
type.  Tuples sum the counts of their components; a struct that is
address-only counts as 1 because its fields cannot be reached; an
inspectable struct sums the counts of its stored fields (VarDecl
members); every other type counts as 1.  The list recursions transcribe
the two range-for loops of the source. -/
def getNumElements : CanType → Nat
  | .tupleType fields => sumTupleFields fields
  | .structType addressOnly members =>
      if addressOnly then 1 else sumStructMembers members
  | .otherType => 1

def sumTupleFields : List CanType → Nat
  | [] => 0
  | t :: ts => getNumElements t + sumTupleFields ts

def sumStructMembers : List (Option CanType) → Nat
  | [] => 0
  | some t :: ms => getNumElements t + sumStructMembers ms
  | none :: ms => sumStructMembers ms

end

/-- The UseKind enumeration of the source. -/
inductive UseKind : Type where
  | load
  | store
  | byrefUse
  | escape
deriving DecidableEq, Repr

/-- The instruction kinds the collector discriminates on via isa and
dyn_cast: the four ignored bookkeeping kinds, LoadInst, StoreInst,
FunctionInst (apply / partial_apply), and everything else. -/
inductive InstKind : Type where
  | deallocStack
  | retain
  | release
  | deallocRef
  | loadInst
  | storeInst
  | functionInst
  | otherInst
deriving DecidableEq, Repr

/-- The slice of SILFunctionTypeInfo that isByRefOrIndirectReturn
queries: whether the callee has an indirect return, and per argument
position whether the Swift argument type is an LValueType (byref). -/
structure SILFunctionTypeInfo where
  hasIndirectReturn : Bool
  argIsLValue : List Bool
deriving DecidableEq, Repr

/-- isByRefOrIndirectReturn from the source: argument position 0 of a
callee with an indirect return is not a capture, and otherwise the
argument is not a capture exactly when its Swift type is an LValueType.
The FunctionTypeInfo is the one obtained from operand 0 of the apply. -/
def isByRefOrIndirectReturn (fti : SILFunctionTypeInfo) (argumentNumber : Nat) : Bool :=
  if argumentNumber == 0 && fti.hasIndirectReturn then true
  else fti.argIsLValue.getD argumentNumber false

/-- One entry of the use list of the box address: the kind of the user
instruction, the operand number the address occupies in the user, the
parent basic block of the user (blocks are numbered), and the function
type information of the user's operand 0 (only consulted when the user is
an apply or partial_apply). -/
structure PtrUse where
  userKind : InstKind
  operandNumber : Nat
  parent : Nat
  calleeInfo : SILFunctionTypeInfo
deriving DecidableEq, Repr

/-- ElementUses from the source: the ordered uses of one element. -/
abbrev ElementUses := List (PtrUse × UseKind)

/-- The box address value handed to collectAllocationUses: its pointee
type and its use list. -/
structure SILAddrValue where
  pointeeType : CanType
  ptrUses : List PtrUse

/-- The initial isa chain of the collector loop: stack deallocation,
retain, release and raw-reference deallocation show up as uses but are
not significant and record nothing. -/
def isIgnoredUser (k : InstKind) : Bool :=
  k == .deallocStack || k == .retain || k == .release || k == .deallocRef

/-- addElementUses from the source: push (User, Kind) onto the bucket of
every element the used type spans, i.e. onto Uses[BaseElt + i] for every
i below getNumElements(UseTy).  The helper walks the bucket array with
its index j and appends to exactly the buckets in the spanned window,
transcribing the push_back loop of the source. -/
def appendSpan (baseElt numElts : Nat) (entry : PtrUse × UseKind) :
    Nat → List ElementUses → List ElementUses
  | _, [] => []
  | j, bucket :: rest =>
      (if baseElt ≤ j ∧ j < baseElt + numElts then bucket ++ [entry] else bucket)
        :: appendSpan baseElt numElts entry (j + 1) rest

def addElementUses (uses : List ElementUses) (baseElt : Nat) (useTy : CanType)
    (user : PtrUse) (kind : UseKind) : List ElementUses :=
  appendSpan baseElt (getNumElements useTy) (user, kind) 0 uses

/-- The body of the collector loop for one use-list entry, transcribing
the continue chain of collectAllocationUses: ignored bookkeeping records
nothing; a LoadInst records Load; a StoreInst whose operand number is 1
(the address is the store destination) records Store; an apply or
partial_apply whose argument (operand number minus one, operand 0 being
the callee) is byref or the indirect return records ByrefUse; everything
else falls through to the default and records Escape.  Every record spans
the full pointee type. -/
def collectUseStep (pointeeType : CanType) (baseElt : Nat)
    (uses : List ElementUses) (u : PtrUse) : List ElementUses :=
  if isIgnoredUser u.userKind then uses
  else if u.userKind == .loadInst then
    addElementUses uses baseElt pointeeType u .load
  else if u.userKind == .storeInst && u.operandNumber == 1 then
    addElementUses uses baseElt pointeeType u .store
  else if u.userKind == .functionInst &&
      isByRefOrIndirectReturn u.calleeInfo (u.operandNumber - 1) then
    addElementUses uses baseElt pointeeType u .byrefUse
  else
    addElementUses uses baseElt pointeeType u .escape

/-- collectAllocationUses from the source: fold the classifier over the
use list of the pointer.  The source asserts that the pointer is an
address and takes the object type as the pointee type; callers pass the
pointee type in SILAddrValue. -/
def collectAllocationUses (pointer : SILAddrValue)
    (uses : List ElementUses) (baseElt : Nat) : List ElementUses :=
  pointer.ptrUses.foldl (collectUseStep pointer.pointeeType baseElt) uses

/-- The EscapeKind enumeration of the source. -/
inductive EscapeKind : Type where
  | unknown
  | yes
  | no
deriving DecidableEq, Repr

/-- LiveOutBlockState from the source: per-block information, default
EscapeKind.unknown. -/
structure LiveOutBlockState where
  escapeInfo : EscapeKind := EscapeKind.unknown
deriving DecidableEq, Repr

/-- The ElementPromotion analysis object: the element's uses, the
per-block map (a total function; blocks absent from the DenseMap of the
source read as the default LiveOutBlockState), and the HasAnyEscape flag. -/
structure ElementPromotion where
  uses : ElementUses
  perBlockInfo : Nat → LiveOutBlockState
  hasAnyEscape : Bool

/-- The ElementPromotion constructor from the source: clear the map, then
for every use of kind Escape set HasAnyEscape and mark the parent block
of the user with EscapeKind.yes.  No other block is ever written, so
every other block keeps the default EscapeKind.unknown; in particular no
reachability propagation over control-flow edges is performed and
EscapeKind.no is never assigned. -/
def ElementPromotion.create (uses : ElementUses) : ElementPromotion :=
  uses.foldl
    (fun ep use =>
      if use.2 == UseKind.escape then
        { ep with
          hasAnyEscape := true
          perBlockInfo := fun b =>
            if b == use.1.parent then { escapeInfo := EscapeKind.yes }
            else ep.perBlockInfo b }
      else ep)
    { uses := uses, perBlockInfo := fun _ => {}, hasAnyEscape := false }

/-- The observable outcome of ElementPromotion::doIt: which Load
instructions it replaced and deleted, and which diagnostics it emitted.
-/
structure DoItResult where
  promotedLoads : List PtrUse
  emittedDiagnostics : List PtrUse
deriving DecidableEq, Repr

/-- ElementPromotion::doIt from the source: a switch over the kind of
every use in which all four arms (Load, Store, ByrefUse, Escape) are
empty breaks.  Consequently it replaces no Load, deletes nothing, and
emits no diagnostic. -/
def ElementPromotion.doIt (ep : ElementPromotion) : DoItResult :=
  ep.uses.foldl
    (fun result use =>
      match use.2 with
      | .load => result
      | .store => result
      | .byrefUse => result
      | .escape => result)
    { promotedLoads := [], emittedDiagnostics := [] }

/-- optimizeAllocBox from the source: size the bucket array by the
flattened element count of the boxed type, collect the uses of the box
address starting at base element 0, then run ElementPromotion on every
element bucket; the list gathers each element's doIt outcome. -/
def optimizeAllocBox (elementType : CanType) (addrUses : List PtrUse) :
    List DoItResult :=
  let uses :=
    collectAllocationUses { pointeeType := elementType, ptrUses := addrUses }
      (List.replicate (getNumElements elementType) []) 0
  uses.map (fun eltUses => (ElementPromotion.create eltUses).doIt)

/-- An instruction of the module as the driver sees it: an alloc_box with
its boxed type, the use list of its address result, and the number of
remaining uses of its box result (retains, releases and other users of
result 0); or any other instruction, which the driver skips (the tag
keeps distinct instructions distinct). -/
inductive SILInstructionM : Type where
  | allocBox (elementType : CanType) (addrUses : List PtrUse) (boxRefUses : Nat)
  | otherInstr (tag : Nat)

/-- The use_empty check of the driver: an alloc_box is erased when
neither of its results has a remaining use.  Instructions that are not
alloc_box are never erased by this pass. -/
def isErasedByPass : SILInstructionM → Bool
  | .allocBox _ addrUses boxRefUses => addrUses.isEmpty && boxRefUses == 0
  | .otherInstr _ => false

/-- The inner driver loop of performSILMemoryPromotion over the
instructions of one basic block: skip non-alloc_box instructions, run
optimizeAllocBox on each alloc_box (whose doIt outcomes rewrite nothing,
so the instruction stream is not changed by it), advance the iterator
past the alloc_box and erase it when its use list is empty. -/
def processInsts : List SILInstructionM → List SILInstructionM
  | [] => []
  | SILInstructionM.allocBox elementType addrUses boxRefUses :: rest =>
      let _promotionOutcome := optimizeAllocBox elementType addrUses
      if addrUses.isEmpty && boxRefUses == 0 then
        processInsts rest
      else
        SILInstructionM.allocBox elementType addrUses boxRefUses :: processInsts rest
  | SILInstructionM.otherInstr tag :: rest =>
      SILInstructionM.otherInstr tag :: processInsts rest

/-- performSILMemoryPromotion from the source: process every basic block
of every function of the module. -/
def performSILMemoryPromotion (m : List (List (List SILInstructionM))) :
    List (List (List SILInstructionM)) :=
  m.map (fun fn => fn.map processInsts)

/-- Total number of recorded (instruction, kind) entries across all
element buckets. -/
def totalEntries (uses : List ElementUses) : Nat :=
  (uses.map List.length).sum

/-- True when no bucket holds an entry whose user is one of the ignored
bookkeeping instruction kinds. -/
def noIgnoredEntries (uses : List ElementUses) : Bool :=
  uses.all (fun bucket => bucket.all (fun e => !isIgnoredUser e.1.userKind))

theorem appendSpan_full (b s : Nat) (e : PtrUse × UseKind) :
    ∀ (l : List ElementUses) (j : Nat), b ≤ j → j + l.length ≤ b + s →
      appendSpan b s e j l = l.map (fun bucket => bucket ++ [e]) := by
  intro l
  induction l with
  | nil => intro j _ _; rfl
  | cons bucket rest ih =>
      intro j hbj hlen
      simp only [List.length_cons] at hlen
      have hj : b ≤ j ∧ j < b + s := by omega
      simp only [appendSpan, List.map_cons, if_pos hj]
      rw [ih (j + 1) (by omega) (by omega)]

theorem addElementUses_full (uses : List ElementUses) (ty : CanType)
    (user : PtrUse) (kind : UseKind) (h : uses.length ≤ getNumElements ty) :
    addElementUses uses 0 ty user kind
      = uses.map (fun bucket => bucket ++ [(user, kind)]) := by
  unfold addElementUses
  exact appendSpan_full 0 (getNumElements ty) (user, kind) uses 0 (Nat.le_refl 0)
    (by omega)

theorem collectUseStep_ignored (p : CanType) (acc : List ElementUses) (u : PtrUse)
    (h : isIgnoredUser u.userKind = true) : collectUseStep p 0 acc u = acc := by
  simp [collectUseStep, h]

theorem collectUseStep_not_ignored (p : CanType) (acc : List ElementUses) (u : PtrUse)
    (h : isIgnoredUser u.userKind = false) :
    ∃ k : UseKind, collectUseStep p 0 acc u = addElementUses acc 0 p u k := by
  unfold collectUseStep
  rw [h]
  simp only [Bool.false_eq_true, if_false]
  by_cases h1 : (u.userKind == InstKind.loadInst) = true
  · exact ⟨UseKind.load, by rw [if_pos h1]⟩
  · rw [Bool.not_eq_true] at h1
    rw [h1]
    simp only [Bool.false_eq_true, if_false]
    by_cases h2 : (u.userKind == InstKind.storeInst && u.operandNumber == 1) = true
    · exact ⟨UseKind.store, by rw [if_pos h2]⟩
    · rw [Bool.not_eq_true] at h2
      rw [h2]
      simp only [Bool.false_eq_true, if_false]
      by_cases h3 : (u.userKind == InstKind.functionInst &&
          isByRefOrIndirectReturn u.calleeInfo (u.operandNumber - 1)) = true
      · exact ⟨UseKind.byrefUse, by rw [if_pos h3]⟩
      · rw [Bool.not_eq_true] at h3
        rw [h3]
        exact ⟨UseKind.escape, by simp⟩

theorem totalEntries_push (uses : List ElementUses) (e : PtrUse × UseKind) :
    totalEntries (uses.map (fun bucket => bucket ++ [e]))
      = totalEntries uses + uses.length := by
  induction uses with
  | nil => rfl
  | cons bucket rest ih =>
      simp only [totalEntries, List.map_cons, List.sum_cons, List.length_append,
        List.length_cons, List.length_nil] at *
      omega

theorem noIgnoredEntries_push (uses : List ElementUses) (u : PtrUse) (k : UseKind)
    (hu : isIgnoredUser u.userKind = false)
    (h : noIgnoredEntries uses = true) :
    noIgnoredEntries (uses.map (fun bucket => bucket ++ [(u, k)])) = true := by
  simp only [noIgnoredEntries, List.all_eq_true, List.mem_map] at *
  rintro bucket' ⟨bucket, hmem, rfl⟩ e he
  rw [List.mem_append] at he
  cases he with
  | inl he => exact h bucket hmem e he
  | inr he =>
      rw [List.mem_singleton] at he
      subst he
      simpa using hu

theorem collect_fold_invariant (p : CanType) :
    ∀ (us : List PtrUse) (acc : List ElementUses),
      acc.length = getNumElements p →
      (collectAllocationUses ⟨p, us⟩ acc 0).length = getNumElements p
      ∧ totalEntries (collectAllocationUses ⟨p, us⟩ acc 0)
          = totalEntries acc
            + (us.filter (fun u => !isIgnoredUser u.userKind)).length * getNumElements p
      ∧ (noIgnoredEntries acc = true →
          noIgnoredEntries (collectAllocationUses ⟨p, us⟩ acc 0) = true) := by
  intro us
  induction us with
  | nil => intro acc hlen; exact ⟨hlen, by simp [collectAllocationUses, totalEntries], fun h => h⟩
  | cons u us ih =>
      intro acc hlen
      have hstep : collectAllocationUses ⟨p, u :: us⟩ acc 0
          = collectAllocationUses ⟨p, us⟩ (collectUseStep p 0 acc u) 0 := rfl
      by_cases hu : isIgnoredUser u.userKind = true
      · rw [hstep, collectUseStep_ignored p acc u hu]
        have := ih acc hlen
        simp only [List.filter_cons, hu, Bool.not_true, Bool.false_eq_true, if_false]
        exact this
      · rw [Bool.not_eq_true] at hu
        obtain ⟨k, hk⟩ := collectUseStep_not_ignored p acc u hu
        rw [hstep, hk, addElementUses_full acc p u k (le_of_eq hlen)]
        have hlen' : (acc.map (fun bucket => bucket ++ [(u, k)])).length
            = getNumElements p := by simpa using hlen
        obtain ⟨h1, h2, h3⟩ := ih _ hlen'
        refine ⟨h1, ?_, ?_⟩
        · rw [h2, totalEntries_push, hlen]
          simp only [List.filter_cons, hu, Bool.not_false, if_pos]
          simp only [List.length_cons]
          ring
        · intro hok
          exact h3 (noIgnoredEntries_push acc u k hu hok)

/-- Claim C6: for every allocation, the Use Collector records no entry
for the ignored bookkeeping instructions (stack deallocation,
reference-count increment and decrement, raw-reference deallocation), and
the total number of recorded (instruction, kind) entries across all
element buckets equals the number of non-ignored instructions in the
address's use list times the element span of the pointee type each of
them touches (every use in this collector spans the full pointee type).
-/
theorem collector_accounting (pointee : CanType) (useList : List PtrUse) :
    noIgnoredEntries
        (collectAllocationUses { pointeeType := pointee, ptrUses := useList }
          (List.replicate (getNumElements pointee) []) 0) = true
    ∧ totalEntries
        (collectAllocationUses { pointeeType := pointee, ptrUses := useList }
          (List.replicate (getNumElements pointee) []) 0)
      = (useList.filter (fun u => !isIgnoredUser u.userKind)).length
          * getNumElements pointee := by
  obtain ⟨h1, h2, h3⟩ := collect_fold_invariant pointee useList
    (List.replicate (getNumElements pointee) []) (List.length_replicate _ _)
  refine ⟨h3 ?_, ?_⟩
  · simp only [noIgnoredEntries, List.all_eq_true]
    intro bucket hb
    rw [List.eq_of_mem_replicate hb]
    simp
  · rw [h2]
    simp [totalEntries, List.map_replicate]

/-- Claim C7: a store instruction in the address's use list is recorded
as Store in every spanned element's bucket exactly when the address is
the store's destination operand (operand number 1); when the address is
instead the value being stored (any other operand number), the store is
recorded as Escape in every spanned element's bucket. -/
theorem store_use_classification (pointee : CanType) (opNo parent : Nat)
    (fti : SILFunctionTypeInfo) :
    collectAllocationUses
        { pointeeType := pointee,
          ptrUses := [{ userKind := InstKind.storeInst, operandNumber := opNo,
                        parent := parent, calleeInfo := fti }] }
        (List.replicate (getNumElements pointee) []) 0
      = List.replicate (getNumElements pointee)
          [({ userKind := InstKind.storeInst, operandNumber := opNo,
              parent := parent, calleeInfo := fti },
            if opNo = 1 then UseKind.store else UseKind.escape)] := by
  have hstep : collectAllocationUses
      { pointeeType := pointee,
        ptrUses := [{ userKind := InstKind.storeInst, operandNumber := opNo,
                      parent := parent, calleeInfo := fti }] }
      (List.replicate (getNumElements pointee) []) 0
      = collectUseStep pointee 0 (List.replicate (getNumElements pointee) [])
          { userKind := InstKind.storeInst, operandNumber := opNo,
            parent := parent, calleeInfo := fti } := rfl
  rw [hstep]
  by_cases h : opNo = 1
  · subst h
    simp [collectUseStep, isIgnoredUser,
      addElementUses_full _ pointee _ _ (le_of_eq (List.length_replicate _ _)),
      List.map_replicate]
  · simp only [collectUseStep, isIgnoredUser]
    rw [if_neg (by simp), if_neg (by simp)]
    rw [if_neg (by simp [h]), if_neg (by simp)]
    rw [addElementUses_full _ pointee _ _ (le_of_eq (List.length_replicate _ _))]
    simp [List.map_replicate, h]

/-- Claim C8: an apply or partial_apply in the address's use list that
passes the address at a genuine argument position (operand number at
least 1, operand 0 being the callee) is recorded as ByrefUse in every
spanned element's bucket exactly when that argument position is position
0 of a callee with an indirect return or a position whose parameter type
is an LValue (byref); otherwise the call use is recorded as Escape in
every spanned element's bucket. -/
theorem call_use_classification (pointee : CanType) (opNo parent : Nat)
    (fti : SILFunctionTypeInfo) (_h : 1 ≤ opNo) :
    collectAllocationUses
        { pointeeType := pointee,
          ptrUses := [{ userKind := InstKind.functionInst, operandNumber := opNo,
                        parent := parent, calleeInfo := fti }] }
        (List.replicate (getNumElements pointee) []) 0
      = List.replicate (getNumElements pointee)
          [({ userKind := InstKind.functionInst, operandNumber := opNo,
              parent := parent, calleeInfo := fti },
            if (opNo - 1 = 0 ∧ fti.hasIndirectReturn = true)
                ∨ fti.argIsLValue.getD (opNo - 1) false = true
            then UseKind.byrefUse else UseKind.escape)] := by
  have hstep : collectAllocationUses
      { pointeeType := pointee,
        ptrUses := [{ userKind := InstKind.functionInst, operandNumber := opNo,
                      parent := parent, calleeInfo := fti }] }
      (List.replicate (getNumElements pointee) []) 0
      = collectUseStep pointee 0 (List.replicate (getNumElements pointee) [])
          { userKind := InstKind.functionInst, operandNumber := opNo,
            parent := parent, calleeInfo := fti } := rfl
  rw [hstep]
  by_cases hbr : ((opNo - 1 = 0 ∧ fti.hasIndirectReturn = true)
      ∨ fti.argIsLValue.getD (opNo - 1) false = true)
  · have hfn : isByRefOrIndirectReturn fti (opNo - 1) = true := by
      unfold isByRefOrIndirectReturn
      rcases hbr with ⟨h0, hir⟩ | hlv
      · simp [h0, hir]
      · by_cases h0 : (opNo - 1 == 0 && fti.hasIndirectReturn) = true
        · simp [h0]
        · have h0' := Bool.eq_false_iff.mpr h0
          rw [h0']
          simp only [Bool.false_eq_true, if_false]
          exact hlv
    simp only [collectUseStep, isIgnoredUser]
    rw [if_neg (by simp), if_neg (by simp), if_neg (by simp)]
    rw [if_pos (by simp [hfn])]
    rw [addElementUses_full _ pointee _ _ (le_of_eq (List.length_replicate _ _))]
    rw [if_pos hbr, List.map_replicate]
    rfl
  · have hfn : isByRefOrIndirectReturn fti (opNo - 1) = false := by
      unfold isByRefOrIndirectReturn
      push_neg at hbr
      obtain ⟨hbr1, hbr2⟩ := hbr
      have hbr2' : fti.argIsLValue.getD (opNo - 1) false = false :=
        Bool.eq_false_iff.mpr hbr2
      have hc : (opNo - 1 == 0 && fti.hasIndirectReturn) = false := by
        by_cases h0 : opNo - 1 = 0
        · have hir : fti.hasIndirectReturn = false := by
            rcases Bool.eq_false_or_eq_true fti.hasIndirectReturn with ht | hf
            · exact absurd ht (hbr1 h0)
            · exact hf
          simp [h0, hir]
        · simp [h0]
      rw [hc]
      simp only [Bool.false_eq_true, if_false]
      exact hbr2'
    simp only [collectUseStep, isIgnoredUser]
    rw [if_neg (by simp), if_neg (by simp), if_neg (by simp)]
    rw [if_neg (by simp [hfn])]
    rw [addElementUses_full _ pointee _ _ (le_of_eq (List.length_replicate _ _))]
    rw [if_neg hbr, List.map_replicate]
    rfl

/-- Witness for call_use_classification: a call passing the address at
argument position 0 of a callee with an indirect return is recorded as
ByrefUse in both buckets of a two-element tuple. -/
theorem call_use_classification_witness :
    1 ≤ 1
    ∧ collectAllocationUses
        { pointeeType := CanType.tupleType [CanType.otherType, CanType.otherType],
          ptrUses := [{ userKind := InstKind.functionInst, operandNumber := 1,
                        parent := 0,
                        calleeInfo := { hasIndirectReturn := true, argIsLValue := [] } }] }
        (List.replicate
          (getNumElements (CanType.tupleType [CanType.otherType, CanType.otherType])) []) 0
      = List.replicate
          (getNumElements (CanType.tupleType [CanType.otherType, CanType.otherType]))
          [({ userKind := InstKind.functionInst, operandNumber := 1,
              parent := 0,
              calleeInfo := { hasIndirectReturn := true, argIsLValue := [] } },
            if (1 - 1 = 0 ∧
                  ({ hasIndirectReturn := true, argIsLValue := [] }
                    : SILFunctionTypeInfo).hasIndirectReturn = true)
                ∨ ({ hasIndirectReturn := true, argIsLValue := [] }
                    : SILFunctionTypeInfo).argIsLValue.getD (1 - 1) false = true
            then UseKind.byrefUse else UseKind.escape)] :=
  ⟨Nat.le_refl 1,
    call_use_classification (CanType.tupleType [CanType.otherType, CanType.otherType])
      1 0 { hasIndirectReturn := true, argIsLValue := [] } (Nat.le_refl 1)⟩

mutual

/-- A type has at least one scalar leaf: tuples need a component with a
leaf, an address-only struct is one leaf itself, an inspectable struct
needs a stored field with a leaf, and every other type is a leaf. -/
def hasLeaf : CanType → Bool
  | .tupleType fields => fieldsHaveLeaf fields
  | .structType addressOnly members =>
      if addressOnly then true else membersHaveLeaf members
  | .otherType => true

def fieldsHaveLeaf : List CanType → Bool
  | [] => false
  | t :: ts => hasLeaf t || fieldsHaveLeaf ts

def membersHaveLeaf : List (Option CanType) → Bool
  | [] => false
  | some t :: ms => hasLeaf t || membersHaveLeaf ms
  | none :: ms => membersHaveLeaf ms

end

mutual

theorem one_le_getNumElements_iff :
    ∀ T : CanType, 1 ≤ getNumElements T ↔ hasLeaf T = true
  | .tupleType fields => by
      simp only [getNumElements, hasLeaf]
      exact one_le_sumTupleFields_iff fields
  | .structType addressOnly members => by
      cases addressOnly with
      | true => simp [getNumElements, hasLeaf]
      | false =>
          simp only [getNumElements, hasLeaf, Bool.false_eq_true, if_false]
          exact one_le_sumStructMembers_iff members
  | .otherType => by simp [getNumElements, hasLeaf]

theorem one_le_sumTupleFields_iff :
    ∀ ts : List CanType, 1 ≤ sumTupleFields ts ↔ fieldsHaveLeaf ts = true
  | [] => by simp [sumTupleFields, fieldsHaveLeaf]
  | t :: ts => by
      have h1 := one_le_getNumElements_iff t
      have h2 := one_le_sumTupleFields_iff ts
      simp only [sumTupleFields, fieldsHaveLeaf, Bool.or_eq_true]
      rw [← h1, ← h2]
      omega

theorem one_le_sumStructMembers_iff :
    ∀ ms : List (Option CanType), 1 ≤ sumStructMembers ms ↔ membersHaveLeaf ms = true
  | [] => by simp [sumStructMembers, membersHaveLeaf]
  | some t :: ms => by
      have h1 := one_le_getNumElements_iff t
      have h2 := one_le_sumStructMembers_iff ms
      simp only [sumStructMembers, membersHaveLeaf, Bool.or_eq_true]
      rw [← h1, ← h2]
      omega
  | none :: ms => by
      simpa [sumStructMembers, membersHaveLeaf] using one_le_sumStructMembers_iff ms

end

theorem sumTupleFields_eq_map_sum (ts : List CanType) :
    sumTupleFields ts = (ts.map getNumElements).sum := by
  induction ts with
  | nil => rfl
  | cons t ts ih => simp [sumTupleFields, ih]

theorem sumStructMembers_eq_map_sum (ms : List (Option CanType)) :
    sumStructMembers ms = ((ms.filterMap id).map getNumElements).sum := by
  induction ms with
  | nil => rfl
  | cons m ms ih =>
      cases m with
      | some t => simp [sumStructMembers, List.filterMap_cons, ih]
      | none => simp [sumStructMembers, List.filterMap_cons, ih]

/-- Claim C4 counterexample: the empty tuple is a well-formed value type
whose flattened element count is 0, so the count is not always at least
1. -/
theorem elementCount_empty_tuple_not_pos :
    ¬ 1 ≤ getNumElements (CanType.tupleType []) := by decide

/-- Claim C4 (amended): the flattened element count of a type is at
least 1 exactly when the type has at least one scalar leaf; aggregates
with no leaves, such as the empty tuple, flatten to 0 elements. -/
theorem elementCount_pos_iff_hasLeaf (T : CanType) :
    1 ≤ getNumElements T ↔ hasLeaf T = true :=
  one_le_getNumElements_iff T

/-- Claim C5: the flattened element count is deterministic (a pure
function of the type) and follows the structural rules: a tuple is the
sum over its component types in order, an inspectable struct is the sum
over its stored fields (the VarDecl members) in order, a struct with
address-only (opaque, resilient) layout counts as 1, and every other
type counts as 1. -/
theorem elementCount_deterministic_structural :
    (∀ T : CanType, getNumElements T = getNumElements T)
    ∧ (∀ fields : List CanType,
        getNumElements (CanType.tupleType fields) = (fields.map getNumElements).sum)
    ∧ (∀ members : List (Option CanType),
        getNumElements (CanType.structType false members)
          = ((members.filterMap id).map getNumElements).sum)
    ∧ (∀ members : List (Option CanType),
        getNumElements (CanType.structType true members) = 1)
    ∧ getNumElements CanType.otherType = 1 := by
  refine ⟨fun T => rfl, fun fields => ?_, fun members => ?_, fun members => rfl, rfl⟩
  · rw [getNumElements, sumTupleFields_eq_map_sum]
  · rw [getNumElements, if_neg (by simp), sumStructMembers_eq_map_sum]

theorem foldl_fixed_of {α β : Type} (f : α → β → α) (hf : ∀ r u, f r u = r) :
    ∀ (l : List β) (r : α), l.foldl f r = r
  | [], _ => rfl
  | u :: l, r => by rw [List.foldl_cons, hf, foldl_fixed_of f hf l]

theorem doIt_result (ep : ElementPromotion) :
    ep.doIt = { promotedLoads := [], emittedDiagnostics := [] } := by
  unfold ElementPromotion.doIt
  apply foldl_fixed_of
  intro r u
  cases u.2 <;> rfl

theorem map_const_of {α β : Type} (f : α → β) (c : β) (hf : ∀ x, f x = c) :
    ∀ l : List α, l.map f = List.replicate l.length c
  | [] => rfl
  | x :: l => by rw [List.map_cons, hf, map_const_of f c hf l]; rfl

theorem optimizeAllocBox_result (elementType : CanType) (addrUses : List PtrUse) :
    optimizeAllocBox elementType addrUses
      = List.replicate (getNumElements elementType)
          { promotedLoads := [], emittedDiagnostics := [] } := by
  unfold optimizeAllocBox
  rw [map_const_of _ _ (fun eltUses => doIt_result (ElementPromotion.create eltUses))]
  rw [(collect_fold_invariant elementType addrUses _ (List.length_replicate _ _)).1]

theorem processInsts_eq_filter :
    ∀ l : List SILInstructionM,
      processInsts l = l.filter (fun i => !isErasedByPass i)
  | [] => rfl
  | SILInstructionM.allocBox ty au br :: rest => by
      simp only [processInsts]
      by_cases hc : (au.isEmpty && br == 0) = true
      · rw [if_pos hc, processInsts_eq_filter rest, List.filter_cons]
        simp [isErasedByPass, hc]
      · rw [if_neg hc, processInsts_eq_filter rest, List.filter_cons]
        simp [isErasedByPass, Bool.eq_false_iff.mpr hc]
  | SILInstructionM.otherInstr tag :: rest => by
      simp only [processInsts]
      rw [processInsts_eq_filter rest, List.filter_cons]
      simp [isErasedByPass]

/-- Claim C9: running the memory-promotion entry point twice over a
module produces the same module as running it once; the second run
rewrites nothing and erases nothing further. -/
theorem memory_promotion_idempotent (m : List (List (List SILInstructionM))) :
    performSILMemoryPromotion (performSILMemoryPromotion m)
      = performSILMemoryPromotion m := by
  have hp : processInsts = fun l => l.filter (fun i => !isErasedByPass i) :=
    funext processInsts_eq_filter
  unfold performSILMemoryPromotion
  rw [List.map_map]
  rw [hp]
  apply List.map_congr_left
  intro fn _
  simp only [Function.comp_apply, List.map_map]
  apply List.map_congr_left
  intro bb _
  simp only [Function.comp_apply, List.filter_filter]
  simp

/-- Claim C10: the only mutation the pass performs on a module is
erasing the alloc_box instructions whose use list is empty at the check
after processing; an allocation with a remaining use is kept, every
other instruction is left unchanged in place, and the per-element
promotion work rewrites nothing and emits nothing for any allocation. -/
theorem memory_promotion_frame :
    (∀ m : List (List (List SILInstructionM)),
        performSILMemoryPromotion m
          = m.map (fun fn => fn.map (fun bb => bb.filter (fun i => !isErasedByPass i))))
    ∧ (∀ (elementType : CanType) (addrUses : List PtrUse),
        optimizeAllocBox elementType addrUses
          = List.replicate (getNumElements elementType)
              { promotedLoads := [], emittedDiagnostics := [] }) := by
  constructor
  · intro m
    have hp : processInsts = fun l => l.filter (fun i => !isErasedByPass i) :=
      funext processInsts_eq_filter
    unfold performSILMemoryPromotion
    rw [hp]
  · exact optimizeAllocBox_result

/-- Function type information attached to use-list entries whose user is
not a call; the collector never consults it for them. -/
def unusedFTI : SILFunctionTypeInfo :=
  { hasIndirectReturn := false, argIsLValue := [] }

/-- Failing input for claim C1: the box address has exactly two uses in
block 0, a store to the address (the address is operand 1, the
destination) followed by a load of the element; the element has no
Escape and no ByrefUse use anywhere and the load is dominated by the
unique reaching store. -/
def c1StoreUse : PtrUse :=
  { userKind := InstKind.storeInst, operandNumber := 1, parent := 0,
    calleeInfo := unusedFTI }

def c1LoadUse : PtrUse :=
  { userKind := InstKind.loadInst, operandNumber := 0, parent := 0,
    calleeInfo := unusedFTI }

def c1Module : List (List (List SILInstructionM)) :=
  [[[SILInstructionM.allocBox CanType.otherType [c1StoreUse, c1LoadUse] 0]]]

/-- Claim C1 evaluated at the failing input: the pass leaves the module
untouched, the promotion step replaces and deletes no load for the
element (every arm of the doIt switch is an empty break), and the
allocation keeps one remaining Load use for the element instead of the
claimed zero. -/
theorem promotion_engine_never_rewrites :
    performSILMemoryPromotion c1Module = c1Module
    ∧ (optimizeAllocBox CanType.otherType [c1StoreUse, c1LoadUse]).map
        DoItResult.promotedLoads = [[]]
    ∧ ([c1StoreUse, c1LoadUse].filter
        (fun u => u.userKind == InstKind.loadInst)).length = 1 :=
  ⟨rfl, rfl, rfl⟩

/-- Failing input for claim C2: the box address has a single use, a load
of the element in block 0, reachable from entry with no preceding store
on that path. -/
def c2LoadUse : PtrUse :=
  { userKind := InstKind.loadInst, operandNumber := 0, parent := 0,
    calleeInfo := unusedFTI }

def c2Module : List (List (List SILInstructionM)) :=
  [[[SILInstructionM.allocBox CanType.otherType [c2LoadUse] 0]]]

/-- Claim C2 evaluated at the failing input: the element's promotion
step emits zero diagnostics (the Load arm of the doIt switch is an empty
break and the pass contains no diagnostic machinery), not the claimed
exactly one Definite-Initialization Violation; the load is indeed left
in place. -/
theorem no_initialization_diagnostic :
    (optimizeAllocBox CanType.otherType [c2LoadUse]).map
        DoItResult.emittedDiagnostics = [[]]
    ∧ performSILMemoryPromotion c2Module = c2Module :=
  ⟨rfl, rfl⟩

/-- Failing input for claim C3: a single Escape use of the element in
block 0 of a function whose control-flow graph has an edge from block 0
to block 1. -/
def c3EscapeUse : PtrUse :=
  { userKind := InstKind.otherInst, operandNumber := 0, parent := 0,
    calleeInfo := unusedFTI }

/-- Claim C3 evaluated at the failing input: the use is classified
Escape and block 0, which contains it, is marked EscapeKind.yes; but
block 1, reachable from block 0 in the failing input's control-flow
graph, stays EscapeKind.unknown because the constructor of
ElementPromotion only seeds the blocks that contain an Escape use and
performs no propagation along control-flow edges (it never consults the
graph and never assigns any other state). -/
theorem escape_taint_not_propagated :
    collectAllocationUses
        { pointeeType := CanType.otherType, ptrUses := [c3EscapeUse] }
        (List.replicate 1 []) 0 = [[(c3EscapeUse, UseKind.escape)]]
    ∧ ((ElementPromotion.create [(c3EscapeUse, UseKind.escape)]).perBlockInfo 0).escapeInfo
        = EscapeKind.yes
    ∧ ((ElementPromotion.create [(c3EscapeUse, UseKind.escape)]).perBlockInfo 1).escapeInfo
        = EscapeKind.unknown
    ∧ (ElementPromotion.create [(c3EscapeUse, UseKind.escape)]).hasAnyEscape = true :=
  ⟨rfl, rfl, rfl, rfl⟩

end MemoryPromotion
